import Mathlib

/-!
Verification development for the DiodePID desktop application (`src/main.py`).

The protocol core is shallowly embedded:
* JSON values are modelled by `JVal`, decoded JSON objects (frames) by
  association lists `Frame` with first-match lookup (Python dicts have
  unique keys, so first-match lookup agrees with dict lookup).
* `send_data` embeds the command-submission path (main.py lines 40-66),
  returning both the validation result and the sequence of observable
  steps (lock acquire, write, lock release, status update, flush).
* `usartIter` / `usartRun` embed one poll-cycle and a run of the USART
  ingestion loop `listen_to_usart` (lines 77-114): buffer accumulation,
  brace-terminated frame slicing, `json.loads` (parameterised, since it
  is a library call), classification and dispatch.  A `json.loads`
  failure raises, which the outer `except` catches: the iteration stops
  with the buffer left untouched, exactly as in the source.
* `luxStep` embeds one received line of the lux ingestion loop
  `listen_for_lux` (lines 125-149), and `appendSample` the history
  append with FIFO eviction at 100 entries (lines 138-142).
* `applyEvent` / `runEvents` embed the operations that mutate the
  `timestamps` / `lux_values` lists, including the clear performed when
  listening restarts (`start_stop_lux_listening`, lines 165-166).
-/

/-- JSON values as decoded by `json.loads` (floats do not occur in any
claim's frames; integer payloads are modelled exactly). -/
inductive JVal where
  | jint  (n : Int)
  | jstr  (s : String)
  | jbool (b : Bool)
  | jnull
  deriving DecidableEq, Repr

/-- A decoded JSON object: key/value pairs with unique keys, looked up
first-match. -/
abbrev Frame := List (String × JVal)

/-- `data[k]` / `data.get(k)` lookup. -/
def getKey (f : Frame) (k : String) : Option JVal :=
  (f.find? (fun p => p.1 == k)).map (·.2)

/-- Python `k in data`. -/
def hasKey (f : Frame) (k : String) : Bool :=
  (getKey f k).isSome

/-- Python `data.get(k, d)`. -/
def getKeyD (f : Frame) (k : String) (d : JVal) : JVal :=
  (getKey f k).getD d

/-- Python `<=` on decoded JSON values: defined on integers, a
`TypeError` (modelled as `none`) otherwise. -/
def pyLE : JVal → JVal → Option Bool
  | .jint a, .jint b => some (a ≤ b)
  | _, _ => none

/-- Python chained comparison `lo <= x <= hi` where `x` is a Python int:
evaluates `lo <= x` first and short-circuits on `False`, so the second
comparison (and any `TypeError` it would raise) is reached only when the
first holds. -/
def chainedLE (lo : JVal) (x : Int) (hi : JVal) : Option Bool :=
  match pyLE lo (.jint x) with
  | none => none
  | some false => some false
  | some true => pyLE (.jint x) hi

/-- Result of `int(entry.get())` on a Tk entry: a Python int, or a
`ValueError` for a string that is not an integer literal. -/
inductive EntryVal where
  | intVal (n : Int)
  | nonInt
  deriving DecidableEq, Repr

/-- Outcome of one `send_data` call, as surfaced through `status_label`. -/
inductive SendResult where
  | notAnInteger
  | luxOutOfRange (lo hi : JVal)
  | pwmOutOfRange
  | typeError
  | sent (frame : Frame)
  deriving DecidableEq, Repr

def SendResult.isSent : SendResult → Bool
  | .sent _ => true
  | _ => false

/-- Observable steps of the command-send path. -/
inductive Step where
  | lockAcquire
  | write
  | lockRelease
  | statusSet
  | flush
  deriving DecidableEq, Repr

/-- Index of the first occurrence of a step in a trace. -/
def idxOfStep (s : Step) (tr : List Step) : Nat :=
  tr.findIdx (fun x => x == s)

/-- `send_data` (main.py lines 40-66).  `pwm_entry` is read and
converted with `int()` first, then `lux_entry`; a `ValueError` from
either is caught as "Please enter valid integers!".  Then the lux bound
check, then the PWM range check; on success the three-field frame is
built, written under `serial_lock`, the status label is set, and
`ser.flush()` runs after the `with serial_lock` block has exited. -/
def send_data (pwmEntry luxEntry : EntryVal) (priorityVar : String)
    (low_lux high_lux : JVal) : SendResult × List Step :=
  match pwmEntry with
  | .nonInt => (.notAnInteger, [.statusSet])
  | .intVal pwm_value =>
    match luxEntry with
    | .nonInt => (.notAnInteger, [.statusSet])
    | .intVal lux_value =>
      let priority : Int := if priorityVar = "PWM" then 1 else 0
      match chainedLE low_lux lux_value high_lux with
      | none => (.typeError, [.statusSet])
      | some inBounds =>
        if ¬ inBounds then
          (.luxOutOfRange low_lux high_lux, [.statusSet])
        else if ¬ (0 ≤ pwm_value ∧ pwm_value ≤ 999) then
          (.pwmOutOfRange, [.statusSet])
        else
          (.sent [("LED", .jint lux_value), ("PWM", .jint pwm_value),
                  ("PRIORITY", .jint priority)],
           [.lockAcquire, .write, .lockRelease, .statusSet, .flush])

/-- State of the USART listening loop: the frame-assembly buffer, the
global `low_lux`/`high_lux` pair, the last feedback shown (success and
message values), and — as a ghost trace — every frame string handed to
`json.loads`. -/
structure UsartState where
  buffer  : List Char
  bounds  : JVal × JVal
  ack     : Option (JVal × JVal)
  emitted : List (List Char)
  deriving DecidableEq, Repr

def initUsart : UsartState :=
  { buffer := [], bounds := (.jint 0, .jint 1000), ack := none, emitted := [] }

/-- Classification and dispatch of one parsed frame (main.py lines
95-103): an `if`/`elif` chain — acknowledgement shape first, then the
bounds-update shape, anything else ignored.  The bounds assignment is
unconditional (`data.get` with a string default, but both keys are
guaranteed present by the guard). -/
def usartDispatch (bounds : JVal × JVal) (ack : Option (JVal × JVal))
    (data : Frame) : (JVal × JVal) × Option (JVal × JVal) :=
  if hasKey data "success" && hasKey data "message" then
    (bounds, some (getKeyD data "success" (.jstr "No success value"),
                   getKeyD data "message" (.jstr "No message")))
  else if hasKey data "operation" && hasKey data "message" &&
          hasKey data "low_lux" && hasKey data "high_lux" then
    ((getKeyD data "low_lux" (.jstr "No low_lux value"),
      getKeyD data "high_lux" (.jstr "No high_lux value")), ack)
  else
    (bounds, ack)

/-- `buffer.find('}')`: index of the first terminator. -/
def findTerm : List Char → Option Nat
  | [] => none
  | c :: cs => if c = '}' then some 0 else (findTerm cs).map (· + 1)

/-- The inner frame-extraction loop of `listen_to_usart` (lines
88-108), parameterised by `parse` standing for `json.loads`.  While the
buffer holds a terminator: slice the prefix through the first `}`, hand
it to `json.loads` (recorded in `emitted`), and on success dispatch it
and drop the consumed prefix.  A parse failure raises; the exception is
caught by the loop's outer `except`, so extraction stops with the buffer
unchanged — the failing frame is not removed.  `fuel` bounds the
recursion; any `fuel ≥ buffer.length` is enough. -/
def usartExtract (parse : List Char → Option Frame) :
    Nat → UsartState → UsartState
  | 0, st => st
  | fuel + 1, st =>
    if st.buffer = [] then st
    else
      match findTerm st.buffer with
      | none => st
      | some i =>
        let json_data := st.buffer.take (i + 1)
        let st' := { st with emitted := st.emitted ++ [json_data] }
        match parse json_data with
        | none => st'
        | some data =>
          let d := usartDispatch st'.bounds st'.ack data
          usartExtract parse fuel
            { buffer := st.buffer.drop (i + 1), bounds := d.1, ack := d.2,
              emitted := st'.emitted }

/-- One poll cycle of `listen_to_usart` in which `readline` returned
`chunk`: append it to the buffer, then run frame extraction. -/
def usartIter (parse : List Char → Option Frame) (st : UsartState)
    (chunk : List Char) : UsartState :=
  let b := st.buffer ++ chunk
  usartExtract parse b.length { st with buffer := b }

/-- A run of the USART loop over a sequence of received chunks. -/
def usartRun (parse : List Char → Option Frame)
    (chunks : List (List Char)) : UsartState :=
  chunks.foldl (usartIter parse) initUsart

/-- The lists `timestamps` and `lux_values`. -/
structure LuxState where
  timestamps : List Nat
  lux_values : List JVal
  deriving DecidableEq, Repr

def initLux : LuxState := { timestamps := [], lux_values := [] }

/-- Lines 138-142: append the timestamp and the lux value, then if the
history exceeds 100 entries pop the oldest of each. -/
def appendSample (s : LuxState) (t : Nat) (v : JVal) : LuxState :=
  let ts := s.timestamps ++ [t]
  let ls := s.lux_values ++ [v]
  if ts.length > 100 then
    { timestamps := ts.drop 1, lux_values := ls.drop 1 }
  else
    { timestamps := ts, lux_values := ls }

/-- Python `data.get("operation") == "data"`: `True` exactly when the
key is present with the string value `"data"` (a missing key gives
`None`, and `None == "data"` is `False`; a non-string value compares
unequal). -/
def opIsData (data : Frame) : Bool :=
  match getKey data "operation" with
  | some (.jstr s) => s == "data"
  | _ => false

/-- One successfully decoded line of `listen_for_lux` (lines 135-142):
if `data.get("operation") == "data" and "data" in data`, the value of
`data["data"]` is appended to the history — with no check of its type. -/
def luxStep (s : LuxState) (data : Frame) (t : Nat) : LuxState :=
  if opIsData data then
    match getKey data "data" with
    | some v => appendSample s t v
    | none => s
  else s

/-- Events that touch the `timestamps`/`lux_values` pair: a received
line (with its `json.loads` result — `none` is a decode failure, which
changes nothing), a listening restart (`start_stop_lux_listening` start
branch, lines 165-166: both lists cleared), and a listening stop (which
leaves the lists alone). -/
inductive LuxEvent where
  | line (t : Nat) (parsed : Option Frame)
  | restart
  | stop
  deriving Repr

def applyEvent (s : LuxState) : LuxEvent → LuxState
  | .line t parsed =>
    match parsed with
    | some data => luxStep s data t
    | none => s
  | .restart => initLux
  | .stop => s

def runEvents (es : List LuxEvent) : LuxState :=
  es.foldl applyEvent initLux

/-- The spec's bounds invariant `lowLux ≤ highLux`, under Python
comparison semantics. -/
def boundsOK (b : JVal × JVal) : Prop :=
  pyLE b.1 b.2 = some true

instance (b : JVal × JVal) : Decidable (boundsOK b) := by
  unfold boundsOK; infer_instance

/-- Numeric JSON values (the claims' frames carry integer samples). -/
def isNumeric : JVal → Bool
  | .jint _ => true
  | _ => false

/-- The USART bounds trajectory: fold dispatch over a sequence of parsed
frames, starting from the initial `{0, 1000}`. -/
def reachBounds (frames : List Frame) : JVal × JVal :=
  frames.foldl (fun b f => (usartDispatch b none f).1) (.jint 0, .jint 1000)

-- Concrete frames used in counterexamples and witnesses.

/-- A bounds update with `low_lux = 500 > high_lux = 100`. -/
def badBoundsFrame : Frame :=
  [("operation", .jstr "config"), ("message", .jstr "bounds"),
   ("low_lux", .jint 500), ("high_lux", .jint 100)]

/-- An acknowledgement frame carrying extra keys, among them a full
bounds-update shape. -/
def ackWithExtras : Frame :=
  [("success", .jbool true), ("message", .jstr "ok"),
   ("operation", .jstr "config"), ("low_lux", .jint 7), ("high_lux", .jint 8)]

/-- A sample frame whose `data` field is a string. -/
def strSampleFrame : Frame :=
  [("operation", .jstr "data"), ("data", .jstr "oops")]

/-- A well-formed integer sample frame. -/
def intSampleFrame : Frame :=
  [("operation", .jstr "data"), ("data", .jint 123)]

/-- A full history: 100 readings with timestamps `0..99` and lux values
`jint 0 .. jint 99`. -/
def fullLux : LuxState :=
  { timestamps := List.range 100,
    lux_values := (List.range 100).map (fun n => JVal.jint n) }

/-- A demonstration `json.loads`: accepts exactly the text `"{ok}"`,
decoding it to an acknowledgement; everything else is a decode error. -/
def parseDemo (s : List Char) : Option Frame :=
  if s = "\x7bok\x7d".toList then
    some [("success", .jbool true), ("message", .jstr "ok")]
  else none

/-! ## Helper lemmas -/

theorem findTerm_none_iff (l : List Char) : findTerm l = none ↔ '}' ∉ l := by
  induction l with
  | nil => simp [findTerm]
  | cons c cs ih =>
    by_cases hc : c = '}'
    · subst hc; simp [findTerm]
    · simp [findTerm, hc, Option.map_eq_none', ih, Ne.symm hc]

theorem findTerm_lt (l : List Char) (i : Nat) (h : findTerm l = some i) :
    i < l.length := by
  induction l generalizing i with
  | nil => simp [findTerm] at h
  | cons c cs ih =>
    by_cases hc : c = '}'
    · subst hc
      simp [findTerm] at h
      simp only [List.length_cons]
      omega
    · simp [findTerm, hc, Option.map_eq_some'] at h
      obtain ⟨j, hj, hij⟩ := h
      have hjlt := ih j hj
      simp only [List.length_cons]
      omega

theorem usartExtract_noTerm (parse : List Char → Option Frame) (fuel : Nat)
    (st : UsartState) (h : '}' ∉ st.buffer) :
    usartExtract parse fuel st = st := by
  cases fuel with
  | zero => rfl
  | succ fuel =>
    unfold usartExtract
    by_cases hb : st.buffer = []
    · simp [hb]
    · simp [hb, (findTerm_none_iff st.buffer).2 h]

theorem usartExtract_conserve (parse : List Char → Option Frame)
    (hp : ∀ s, (parse s).isSome = true) (fuel : Nat) :
    ∀ st : UsartState,
      (usartExtract parse fuel st).emitted.flatten ++
          (usartExtract parse fuel st).buffer =
        st.emitted.flatten ++ st.buffer := by
  induction fuel with
  | zero => intro st; rfl
  | succ fuel ih =>
    intro st
    unfold usartExtract
    by_cases hb : st.buffer = []
    · simp [hb]
    · rw [if_neg hb]
      cases hft : findTerm st.buffer with
      | none => rfl
      | some i =>
        cases hP : parse (st.buffer.take (i + 1)) with
        | none =>
          have hs := hp (st.buffer.take (i + 1))
          rw [hP] at hs
          simp at hs
        | some data =>
          simp only [hP]
          rw [ih]
          simp [List.flatten_append, List.append_assoc]

theorem usartExtract_nobrace (parse : List Char → Option Frame)
    (hp : ∀ s, (parse s).isSome = true) :
    ∀ (fuel : Nat) (st : UsartState), st.buffer.length ≤ fuel →
      '}' ∉ (usartExtract parse fuel st).buffer := by
  intro fuel
  induction fuel with
  | zero =>
    intro st hlen
    have hnil : st.buffer = [] := List.length_eq_zero.1 (Nat.le_zero.1 hlen)
    simp [usartExtract, hnil]
  | succ fuel ih =>
    intro st hlen
    unfold usartExtract
    by_cases hb : st.buffer = []
    · simp [hb]
    · rw [if_neg hb]
      cases hft : findTerm st.buffer with
      | none => exact (findTerm_none_iff st.buffer).1 hft
      | some i =>
        cases hP : parse (st.buffer.take (i + 1)) with
        | none =>
          have hs := hp (st.buffer.take (i + 1))
          rw [hP] at hs
          simp at hs
        | some data =>
          simp only [hP]
          apply ih
          have hi := findTerm_lt st.buffer i hft
          simp only [List.length_drop]
          omega

theorem applyEvent_len_eq (s : LuxState) (e : LuxEvent)
    (h : s.timestamps.length = s.lux_values.length) :
    (applyEvent s e).timestamps.length = (applyEvent s e).lux_values.length := by
  cases e with
  | restart => rfl
  | stop => exact h
  | line t parsed =>
    cases parsed with
    | none => exact h
    | some data =>
      simp only [applyEvent, luxStep]
      by_cases hop : opIsData data = true
      · rw [if_pos hop]
        cases hd : getKey data "data" with
        | none => exact h
        | some v =>
          simp only [appendSample]
          split
          · simp [h]
          · simp [h]
      · rw [if_neg hop]; exact h

theorem runEvents_aux (es : List LuxEvent) :
    ∀ s : LuxState, s.timestamps.length = s.lux_values.length →
      (es.foldl applyEvent s).timestamps.length =
        (es.foldl applyEvent s).lux_values.length := by
  induction es with
  | nil => intro s h; exact h
  | cons e es ih =>
    intro s h
    exact ih (applyEvent s e) (applyEvent_len_eq s e h)

/-! ## Claim theorems -/

/-- C1, counterexample: the code applies a bounds update unconditionally —
dispatching a `BoundsUpdate` with `low_lux = 500 > high_lux = 100` from the
initial bounds `{0, 1000}` stores `{500, 100}`, a state that both differs
from the prior bounds and violates `lowLux ≤ highLux`. -/
theorem bounds_invariant_counterexample :
    reachBounds [badBoundsFrame] = (.jint 500, .jint 100) ∧
    reachBounds [badBoundsFrame] ≠ (.jint 0, .jint 1000) ∧
    ¬ boundsOK (reachBounds [badBoundsFrame]) := by decide

/-- C1, amended: `listen_to_usart` performs no validation on a bounds
update — any frame matching the bounds-update shape (and not the
acknowledgement shape) overwrites the stored bounds with the frame's
`low_lux` and `high_lux` values, whatever they are; the invariant
`lowLux ≤ highLux` is not enforced. -/
theorem bounds_update_unconditional (b : JVal × JVal) (a : Option (JVal × JVal))
    (f : Frame)
    (hns : (hasKey f "success" && hasKey f "message") = false)
    (hop : hasKey f "operation" = true) (hmsg : hasKey f "message" = true)
    (hlo : hasKey f "low_lux" = true) (hhi : hasKey f "high_lux" = true) :
    (usartDispatch b a f).1 =
      (getKeyD f "low_lux" (.jstr "No low_lux value"),
       getKeyD f "high_lux" (.jstr "No high_lux value")) := by
  have hsucc : hasKey f "success" = false := by
    cases h : hasKey f "success"
    · rfl
    · rw [h, hmsg] at hns; simp at hns
  simp [usartDispatch, hsucc, hop, hmsg, hlo, hhi]

/-- C1 witness: the amended theorem applied to the invalid bounds frame. -/
theorem bounds_update_unconditional_witness :
    (usartDispatch (.jint 0, .jint 1000) none badBoundsFrame).1 =
      (getKeyD badBoundsFrame "low_lux" (.jstr "No low_lux value"),
       getKeyD badBoundsFrame "high_lux" (.jstr "No high_lux value")) :=
  bounds_update_unconditional (.jint 0, .jint 1000) none badBoundsFrame
    (by decide) (by decide) (by decide) (by decide) (by decide)

/-- C2: evaluation of the USART loop at a failing input.  With a
`json.loads` that rejects `"bad}"` and accepts `"{ok}"` (as an
acknowledgement), receiving the chunk `"bad}"` and then `"{ok}"` leaves
the malformed frame in the buffer (it is not discarded), hands the very
same malformed slice to `json.loads` once per cycle (a retry), never
reaches the well-formed acknowledgement frame behind it (no feedback is
recorded), and changes no state. -/
theorem malformed_frame_blocks_usart_stream :
    (usartRun parseDemo ["bad\x7d".toList, "\x7bok\x7d".toList]).buffer =
      "bad\x7d\x7bok\x7d".toList ∧
    (usartRun parseDemo ["bad\x7d".toList, "\x7bok\x7d".toList]).ack = none ∧
    (usartRun parseDemo ["bad\x7d".toList, "\x7bok\x7d".toList]).bounds =
      (.jint 0, .jint 1000) ∧
    (usartRun parseDemo ["bad\x7d".toList, "\x7bok\x7d".toList]).emitted =
      ["bad\x7d".toList, "bad\x7d".toList] := by decide

/-- C3, counterexample: the input `pwm_entry = "abc"` (not an integer),
`lux_entry = 5000` under bounds `{0, 1000}` violates both the lux-range
check and the integer-representability check; the claim's order predicts
`LuxOutOfRange`, but the code reports `NotAnInteger`, because `int()` is
applied to both entries before any range check runs. -/
theorem validation_order_counterexample :
    (send_data .nonInt (.intVal 5000) "PWM" (.jint 0) (.jint 1000)).1 =
      .notAnInteger ∧
    (send_data .nonInt (.intVal 5000) "PWM" (.jint 0) (.jint 1000)).1 ≠
      .luxOutOfRange (.jint 0) (.jint 1000) := by decide

/-- C3, amended: the checks run in the order (c) integer representability
of both inputs (`NotAnInteger`), then (a) luxTarget within
`[lowLux, highLux]` (`LuxOutOfRange`), then (b) pwm within `[0, 999]`
(`PwmOutOfRange`); on multiple violations the earliest check in this
order is reported. -/
theorem send_data_error_precedence (pe le : EntryVal) (pr : String)
    (lo hi : JVal) :
    (pe = .nonInt ∨ le = .nonInt →
      (send_data pe le pr lo hi).1 = .notAnInteger) ∧
    (∀ p l, pe = .intVal p → le = .intVal l →
      chainedLE lo l hi = some false →
      (send_data pe le pr lo hi).1 = .luxOutOfRange lo hi) ∧
    (∀ p l, pe = .intVal p → le = .intVal l →
      chainedLE lo l hi = some true → ¬ (0 ≤ p ∧ p ≤ 999) →
      (send_data pe le pr lo hi).1 = .pwmOutOfRange) := by
  refine ⟨?_, ?_, ?_⟩
  · rintro (rfl | rfl)
    · rfl
    · cases pe <;> rfl
  · rintro p l rfl rfl hc
    simp [send_data, hc]
  · rintro p l rfl rfl hc h999
    simp [send_data, hc, h999]

/-- C3 witness: each of the three precedence branches at a concrete
input.  The first is the counterexample input itself. -/
theorem send_data_error_precedence_witness :
    (send_data .nonInt (.intVal 5000) "PWM" (.jint 0) (.jint 1000)).1 =
      .notAnInteger ∧
    (send_data (.intVal 100) (.intVal 5000) "PWM" (.jint 0) (.jint 1000)).1 =
      .luxOutOfRange (.jint 0) (.jint 1000) ∧
    (send_data (.intVal 1000) (.intVal 50) "LUX" (.jint 0) (.jint 1000)).1 =
      .pwmOutOfRange :=
  ⟨(send_data_error_precedence .nonInt (.intVal 5000) "PWM" (.jint 0)
      (.jint 1000)).1 (Or.inl rfl),
   (send_data_error_precedence (.intVal 100) (.intVal 5000) "PWM" (.jint 0)
      (.jint 1000)).2.1 100 5000 rfl rfl (by decide),
   (send_data_error_precedence (.intVal 1000) (.intVal 50) "LUX" (.jint 0)
      (.jint 1000)).2.2 1000 50 rfl rfl (by decide) (by decide)⟩

theorem usartRun_conserve_aux (parse : List Char → Option Frame)
    (hp : ∀ s, (parse s).isSome = true) :
    ∀ (chunks : List (List Char)) (st : UsartState),
      (chunks.foldl (usartIter parse) st).emitted.flatten ++
          (chunks.foldl (usartIter parse) st).buffer =
        st.emitted.flatten ++ st.buffer ++ chunks.flatten := by
  intro chunks
  induction chunks with
  | nil => intro st; simp
  | cons c cs ih =>
    intro st
    rw [List.foldl_cons, ih]
    have h1 := usartExtract_conserve parse hp (st.buffer ++ c).length
      { st with buffer := st.buffer ++ c }
    simp only [usartIter]
    rw [h1]
    simp [List.append_assoc]

theorem usartRun_nobrace_aux (parse : List Char → Option Frame)
    (hp : ∀ s, (parse s).isSome = true) :
    ∀ (chunks : List (List Char)) (st : UsartState), '}' ∉ st.buffer →
      '}' ∉ (chunks.foldl (usartIter parse) st).buffer := by
  intro chunks
  induction chunks with
  | nil => intro st h; exact h
  | cons c cs ih =>
    intro st _
    rw [List.foldl_cons]
    apply ih
    simp only [usartIter]
    exact usartExtract_nobrace parse hp _ _ (le_refl _)

/-- C4: feeding any sequence of chunks to the frame-slicing loop (with a
`json.loads` that accepts every slice, so that extraction alone is
observed) conserves bytes: the concatenation of all frame slices handed
to the parser, followed by the residual buffer, equals the concatenation
of the input chunks, and the residual buffer holds no terminator — so
the emitted frames are exactly the input up to and including the last
`}`.  Moreover a chunk without a terminator (arriving on a
terminator-free buffer) emits nothing and is retained whole. -/
theorem frame_assembler_conserves (parse : List Char → Option Frame)
    (hp : ∀ s, (parse s).isSome = true) (chunks : List (List Char)) :
    ((usartRun parse chunks).emitted.flatten ++
        (usartRun parse chunks).buffer = chunks.flatten) ∧
    '}' ∉ (usartRun parse chunks).buffer ∧
    (∀ (st : UsartState) (chunk : List Char), '}' ∉ st.buffer →
      '}' ∉ chunk →
      usartIter parse st chunk = { st with buffer := st.buffer ++ chunk }) := by
  refine ⟨?_, ?_, ?_⟩
  · have h := usartRun_conserve_aux parse hp chunks initUsart
    simpa [usartRun, initUsart] using h
  · exact usartRun_nobrace_aux parse hp chunks initUsart (by simp [initUsart])
  · intro st chunk h1 h2
    simp only [usartIter]
    apply usartExtract_noTerm
    simp [List.mem_append, h1, h2]

/-- C4 witness: three concrete chunks (`"ab}"`, `"cd"`, `"e}f"`) under an
always-accepting parser: bytes are conserved, the residual buffer `"f"`
has no terminator, and the terminator-free chunk `"cd"` fed on an empty
buffer is retained whole with nothing emitted. -/
theorem frame_assembler_conserves_witness :
    ((usartRun (fun _ => some []) ["ab\x7d".toList, "cd".toList, "e\x7df".toList]).emitted.flatten ++
        (usartRun (fun _ => some []) ["ab\x7d".toList, "cd".toList, "e\x7df".toList]).buffer =
      (["ab\x7d".toList, "cd".toList, "e\x7df".toList] : List (List Char)).flatten) ∧
    '}' ∉ (usartRun (fun _ => some []) ["ab\x7d".toList, "cd".toList, "e\x7df".toList]).buffer ∧
    usartIter (fun _ => some []) initUsart "cd".toList =
      { initUsart with buffer := "cd".toList } :=
  have h := frame_assembler_conserves (fun _ => some []) (fun _ => rfl)
    ["ab\x7d".toList, "cd".toList, "e\x7df".toList]
  ⟨h.1, h.2.1, h.2.2 initUsart "cd".toList (by decide) (by decide)⟩

/-- C5, counterexample: in the step trace of a successful submit the
write precedes the flush, but the flush does NOT precede the release of
`serial_lock` — `ser.flush()` runs after the `with serial_lock` block
has already exited, so the flush is not between the write and the
lock release. -/
theorem flush_before_release_counterexample :
    idxOfStep .write
        (send_data (.intVal 100) (.intVal 50) "PWM" (.jint 0) (.jint 1000)).2 <
      idxOfStep .flush
        (send_data (.intVal 100) (.intVal 50) "PWM" (.jint 0) (.jint 1000)).2 ∧
    ¬ (idxOfStep .flush
        (send_data (.intVal 100) (.intVal 50) "PWM" (.jint 0) (.jint 1000)).2 <
       idxOfStep .lockRelease
        (send_data (.intVal 100) (.intVal 50) "PWM" (.jint 0) (.jint 1000)).2) := by
  decide

/-- C5, amended: every successful submit performs, in order: lock
acquire, write, lock release, status update, flush — the transport write
is always followed by an explicit flush, but the flush occurs after the
exclusive serial lock has been released, not before. -/
theorem flush_after_release (pe le : EntryVal) (pr : String) (lo hi : JVal)
    (h : ((send_data pe le pr lo hi).1).isSent = true) :
    (send_data pe le pr lo hi).2 =
      [.lockAcquire, .write, .lockRelease, .statusSet, .flush] ∧
    idxOfStep .write (send_data pe le pr lo hi).2 <
      idxOfStep .flush (send_data pe le pr lo hi).2 ∧
    idxOfStep .lockRelease (send_data pe le pr lo hi).2 <
      idxOfStep .flush (send_data pe le pr lo hi).2 := by
  have htr : (send_data pe le pr lo hi).2 =
      [.lockAcquire, .write, .lockRelease, .statusSet, .flush] := by
    cases pe with
    | nonInt => simp [send_data, SendResult.isSent] at h
    | intVal p =>
      cases le with
      | nonInt => simp [send_data, SendResult.isSent] at h
      | intVal l =>
        cases hc : chainedLE lo l hi with
        | none => simp [send_data, hc, SendResult.isSent] at h
        | some inb =>
          cases inb with
          | false => simp [send_data, hc, SendResult.isSent] at h
          | true =>
            by_cases h999 : 0 ≤ p ∧ p ≤ 999
            · simp [send_data, hc, h999]
            · simp [send_data, hc, h999, SendResult.isSent] at h
  rw [htr]
  exact ⟨rfl, by decide, by decide⟩

/-- C5 witness: the amended ordering at the concrete successful submit
`pwm = 100`, `lux = 50`, priority PWM, bounds `{0, 1000}`. -/
theorem flush_after_release_witness :
    (send_data (.intVal 100) (.intVal 50) "PWM" (.jint 0) (.jint 1000)).2 =
      [.lockAcquire, .write, .lockRelease, .statusSet, .flush] ∧
    idxOfStep .write
        (send_data (.intVal 100) (.intVal 50) "PWM" (.jint 0) (.jint 1000)).2 <
      idxOfStep .flush
        (send_data (.intVal 100) (.intVal 50) "PWM" (.jint 0) (.jint 1000)).2 ∧
    idxOfStep .lockRelease
        (send_data (.intVal 100) (.intVal 50) "PWM" (.jint 0) (.jint 1000)).2 <
      idxOfStep .flush
        (send_data (.intVal 100) (.intVal 50) "PWM" (.jint 0) (.jint 1000)).2 :=
  flush_after_release (.intVal 100) (.intVal 50) "PWM" (.jint 0) (.jint 1000)
    (by decide)

/-- C6, counterexample: the sample frame
`{"operation": "data", "data": "oops"}` — whose `data` field is a
string, not a number — is NOT discarded by `listen_for_lux`: it changes
the state, appending the non-numeric value `"oops"` to the history. -/
theorem nonnumeric_sample_counterexample :
    luxStep initLux strSampleFrame 0 ≠ initLux ∧
    (luxStep initLux strSampleFrame 0).lux_values = [.jstr "oops"] ∧
    isNumeric (.jstr "oops") = false := by decide

/-- C6, amended: a parsed sample frame's `data` value is appended to the
history as the newest lux entry whatever its type — the code performs no
type check, so a non-numeric `data` value is stored rather than being
treated as malformed. -/
theorem nonnumeric_sample_appended (s : LuxState) (f : Frame) (t : Nat)
    (v : JVal) (hlen : s.timestamps.length = s.lux_values.length)
    (hop : opIsData f = true) (hv : getKey f "data" = some v) :
    (luxStep s f t).lux_values.getLast? = some v := by
  simp only [luxStep, hop, if_true, hv]
  simp only [appendSample]
  split
  · rename_i hgt
    cases hls : s.lux_values with
    | nil =>
      rw [hls] at hlen
      simp at hlen
      simp [List.length_append, hlen] at hgt
    | cons c ls => simp [hls]
  · simp

/-- C6 witness: the amended theorem at the string-valued sample frame. -/
theorem nonnumeric_sample_appended_witness :
    (luxStep initLux strSampleFrame 0).lux_values.getLast? =
      some (.jstr "oops") :=
  nonnumeric_sample_appended initLux strSampleFrame 0 (.jstr "oops") rfl
    (by decide) (by decide)

/-- C7: for every valid input (lux within the integer bounds, pwm in
`[0, 999]`), `send_data` emits a frame with exactly the three fields
`LED` (the lux target), `PWM` (the pwm value) and `PRIORITY` (1 when the
priority selection is PWM, 0 otherwise), in that order. -/
theorem encode_emits_three_fields (p l : Int) (pr : String) (lo hi : JVal)
    (hlux : chainedLE lo l hi = some true) (hp0 : 0 ≤ p) (hp999 : p ≤ 999) :
    (send_data (.intVal p) (.intVal l) pr lo hi).1 =
      .sent [("LED", .jint l), ("PWM", .jint p),
             ("PRIORITY", .jint (if pr = "PWM" then 1 else 0))] := by
  simp [send_data, hlux, hp0, hp999]

/-- C7 witness: `encode(pwm = 100, lux = 50, priority = PWM)` under
bounds `{0, 1000}` yields exactly `{"LED": 50, "PWM": 100, "PRIORITY": 1}`. -/
theorem encode_emits_three_fields_witness :
    (send_data (.intVal 100) (.intVal 50) "PWM" (.jint 0) (.jint 1000)).1 =
      .sent [("LED", .jint 50), ("PWM", .jint 100), ("PRIORITY", .jint 1)] := by
  rw [encode_emits_three_fields 100 50 "PWM" (.jint 0) (.jint 1000)
    (by decide) (by decide) (by decide)]
  decide

/-- C8: the history never exceeds 100 entries — an append from any
aligned state of at most 100 readings yields at most 100 — and appending
to a full history of exactly 100 readings evicts the oldest: the result
is the previous readings 2..100 followed by the new one, which is the
newest, and the length stays 100 (FIFO eviction). -/
theorem history_capacity_fifo (s : LuxState) (t : Nat) (v : JVal)
    (hlen : s.timestamps.length = s.lux_values.length) :
    (s.lux_values.length ≤ 100 →
      (appendSample s t v).timestamps.length ≤ 100 ∧
      (appendSample s t v).lux_values.length ≤ 100) ∧
    (s.lux_values.length = 100 →
      (appendSample s t v).lux_values = s.lux_values.drop 1 ++ [v] ∧
      (appendSample s t v).timestamps = s.timestamps.drop 1 ++ [t] ∧
      (appendSample s t v).lux_values.getLast? = some v ∧
      (appendSample s t v).lux_values.length = 100) := by
  constructor
  · intro h100
    simp only [appendSample]
    split
    · rename_i hgt
      simp only [List.length_append, List.length_cons, List.length_nil] at hgt
      simp only [List.length_drop, List.length_append, List.length_cons,
        List.length_nil]
      omega
    · rename_i hgt
      simp only [List.length_append, List.length_cons, List.length_nil] at hgt
      simp only [List.length_append, List.length_cons, List.length_nil]
      omega
  · intro h100
    have hts : s.timestamps.length = 100 := by omega
    have hevict : (s.timestamps ++ [t]).length > 100 := by
      simp [List.length_append, hts]
    simp only [appendSample, if_pos hevict]
    have h1l : 1 ≤ s.lux_values.length := by omega
    have h1t : 1 ≤ s.timestamps.length := by omega
    refine ⟨List.drop_append_of_le_length h1l,
            List.drop_append_of_le_length h1t, ?_, ?_⟩
    · rw [List.drop_append_of_le_length h1l]
      simp [List.getLast?_concat]
    · simp only [List.length_drop, List.length_append, List.length_cons,
        List.length_nil]
      omega

/-- C8 witness: appending a 101st reading to the full 100-entry history
evicts the first reading, keeps the new reading as the newest, and
leaves the length at (hence at most) 100. -/
theorem history_capacity_fifo_witness :
    (appendSample fullLux 100 (.jint 100)).lux_values =
      fullLux.lux_values.drop 1 ++ [.jint 100] ∧
    (appendSample fullLux 100 (.jint 100)).lux_values.getLast? =
      some (.jint 100) ∧
    (appendSample fullLux 100 (.jint 100)).timestamps.length ≤ 100 :=
  have h := history_capacity_fifo fullLux 100 (.jint 100) (by rfl)
  ⟨(h.2 (by rfl)).1, (h.2 (by rfl)).2.2.1, (h.1 (by decide)).1⟩

/-- C9: classification is first-match-wins — any frame whose keys
include both `success` and `message` is dispatched as an
acknowledgement, whatever other keys it carries: the bounds are left
untouched and the feedback records the frame's `success` and `message`
values; and any frame with `operation == "data"` and a `data` key is
dispatched as a sample reading whose appended lux value is exactly the
frame's `data` value. -/
theorem classification_first_match (b : JVal × JVal) (a : Option (JVal × JVal))
    (f : Frame) (s : LuxState) (g : Frame) (t : Nat) (v : JVal)
    (hacks : hasKey f "success" = true) (hackm : hasKey f "message" = true)
    (hop : opIsData g = true) (hd : getKey g "data" = some v) :
    (usartDispatch b a f).1 = b ∧
    (usartDispatch b a f).2 =
      some (getKeyD f "success" (.jstr "No success value"),
            getKeyD f "message" (.jstr "No message")) ∧
    luxStep s g t = appendSample s t v := by
  refine ⟨?_, ?_, ?_⟩
  · simp [usartDispatch, hacks, hackm]
  · simp [usartDispatch, hacks, hackm]
  · simp [luxStep, hop, hd]

/-- C9 witness: an acknowledgement frame that also carries `operation`,
`low_lux` and `high_lux` keys still leaves the bounds untouched and is
reported as feedback, and the sample frame
`{"operation": "data", "data": 123}` appends exactly `123`. -/
theorem classification_first_match_witness :
    (usartDispatch (.jint 0, .jint 1000) none ackWithExtras).1 =
      (.jint 0, .jint 1000) ∧
    (usartDispatch (.jint 0, .jint 1000) none ackWithExtras).2 =
      some (.jbool true, .jstr "ok") ∧
    luxStep initLux intSampleFrame 5 = appendSample initLux 5 (.jint 123) := by
  have h := classification_first_match (.jint 0, .jint 1000) none ackWithExtras
    initLux intSampleFrame 5 (.jint 123) (by decide) (by decide) (by decide)
    (by decide)
  exact ⟨h.1, by rw [h.2.1]; decide, h.2.2⟩

/-- C10: after any sequence of history events — decoded or undecodable
lines, listening restarts (which clear both lists), stops — the
`timestamps` list and the `lux_values` list have the same length, so
every timestamp pairs with a lux value. -/
theorem timestamps_lux_values_aligned (es : List LuxEvent) :
    (runEvents es).timestamps.length = (runEvents es).lux_values.length :=
  runEvents_aux es initLux rfl
